import Mathlib

/-!
Shallow embedding of the `ngrams` crate (`src/lib.rs`): a lazy sliding-window
n-gram iterator over a token stream, with an optional padding stage that
surrounds the input with sentinel tokens.  Iterators are embedded as explicit
state machines: a pull (`Iterator::next`) is a function from a state to the
emitted item together with the successor state, and a panic is modelled as an
`Option`/dedicated outcome.  All definitions are executable.
-/

universe u

/-- The `Pad` trait (lib.rs lines 182-190): a type-specific padding `symbol`
together with a pad-length function `len` of the window size `n`; the trait
default for `len` is `n - 1`. -/
structure Pad (T : Type u) where
  symbol : T
  len : Nat → Nat

/-- `WORD_SEP` (lib.rs line 53): the U+2060 word-joiner string used by the
built-in `Pad` implementations. -/
def WORD_SEP : String := "\u2060"

/-- `impl Pad for &str` (lib.rs lines 192-196); borrowed and owned Rust
strings are both embedded as `String`.  `len` is the trait default. -/
def Pad.str : Pad String :=
  { symbol := WORD_SEP, len := fun n => n - 1 }

/-- `impl Pad for String` (lib.rs lines 198-202). -/
def Pad.string : Pad String :=
  { symbol := WORD_SEP, len := fun n => n - 1 }

/-- `impl Pad for Vec<u8>` (lib.rs lines 204-208): the symbol is the UTF-8
byte sequence of `WORD_SEP` (the three bytes E2 81 A0), bytes as `Nat`. -/
def Pad.bytes : Pad (List Nat) :=
  { symbol := [0xE2, 0x81, 0xA0], len := fun n => n - 1 }

/-- `impl Pad for char` (lib.rs lines 210-214): `WORD_SEP.chars().next().unwrap()`.
`WORD_SEP` is a nonempty one-character string, so the `headD` default is never
taken. -/
def Pad.char : Pad Char :=
  { symbol := WORD_SEP.data.headD (Char.ofNat 0), len := fun n => n - 1 }

/-- A token source as the windowing stage sees it: either the raw tokenized
input (embedded as a finite list) or one `Padded` wrapper (struct at lib.rs
lines 216-222: inner boxed source, pad length `len`, pad `symbol`, the
`remaining` countdown and the `end` flag, here `endFlag`) around another
source.  `Ngrams::pad` re-wraps the current source, so wrappers may nest. -/
inductive Src (T : Type u) where
  | raw : List T → Src T
  | padded : Src T → Nat → T → Nat → Bool → Src T
deriving DecidableEq

/-- One pull on a source.  For a raw list this is list head/tail; for a
`Padded` wrapper this is `impl Iterator for Padded::next` (lib.rs lines
240-265): while `remaining > 0` emit the symbol and decrement; otherwise pull
the inner source and pass its token through; on the first inner exhaustion set
the `end` flag and reload `remaining = len`, emitting trailing symbols until
the countdown is spent, then yield nothing.  Returns the emitted item
(`none` = yielded nothing) together with the successor state. -/
def Src.next {T : Type u} : Src T → Option T × Src T
  | .raw [] => (none, .raw [])
  | .raw (t :: rest) => (some t, .raw rest)
  | .padded inner len symbol remaining endFlag =>
    if 0 < remaining then
      (some symbol, .padded inner len symbol (remaining - 1) endFlag)
    else
      match Src.next inner with
      | (some t, inner2) => (some t, .padded inner2 len symbol remaining endFlag)
      | (none, inner2) =>
        let remaining2 := if endFlag then remaining else len
        if 0 < remaining2 then
          (some symbol, .padded inner2 len symbol (remaining2 - 1) true)
        else
          (none, .padded inner2 len symbol remaining2 true)

/-- Drive a source for at most `fuel` pulls, collecting the emitted tokens in
order; stops early at the first pull that yields nothing. -/
def Src.run {T : Type u} : Nat → Src T → List T
  | 0, _ => []
  | fuel + 1, s =>
    match Src.next s with
    | (none, _) => []
    | (some t, s2) => t :: Src.run fuel s2

/-- The token stream a source denotes, computed structurally: a raw list
denotes itself; a live (`endFlag = false`) wrapper denotes its pending leading
symbols, then the inner stream, then `len` trailing symbols; a wrapper already
in its trailing phase denotes just the pending trailing symbols. -/
def Src.stream {T : Type u} : Src T → List T
  | .raw l => l
  | .padded inner len symbol remaining endFlag =>
    if endFlag then List.replicate remaining symbol
    else List.replicate remaining symbol ++ Src.stream inner ++ List.replicate len symbol

/-- Reachable-state invariant for sources: a wrapper whose `end` flag is set
has an exhausted inner source.  Raw sources and freshly built wrappers
(`endFlag = false`) satisfy it trivially. -/
def Src.wf {T : Type u} : Src T → Prop
  | .raw _ => True
  | .padded inner _ _ _ endFlag => Src.wf inner ∧ (endFlag = true → Src.stream inner = [])

/-- The `Ngrams` struct (lib.rs lines 82-88): the (possibly padded) source,
the window size `num`, the lookback-buffer target size `memsize = num - 1`,
the `VecDeque` lookback buffer `memory` (front = oldest = list head), and the
`pad` marker flag (named `padFlag` here because `pad` is kept for the method). -/
structure Ngrams (T : Type u) where
  source : Src T
  num : Nat
  memsize : Nat
  memory : List T
  padFlag : Bool
deriving DecidableEq

/-- `Ngrams::new` (lib.rs lines 99-108).  `let memsize = n - 1` is `usize`
arithmetic: for `n = 0` the subtraction underflows, a checked-arithmetic
panic, so construction is `Option`-valued and yields `none` exactly there. -/
def Ngrams.new {T : Type u} (source : List T) (n : Nat) : Option (Ngrams T) :=
  if n = 0 then none
  else some { source := Src.raw source, num := n, memsize := n - 1,
              memory := [], padFlag := false }

/-- `Ngrams::pad` (lib.rs lines 113-117): set the flag and re-wrap the current
source in a `Padded` built by `Padded::new(source, num)` (lib.rs lines
224-234), whose pad length and countdown start at `T::len(num)` with the
`end` flag clear.  The Rust trait dispatch on `T` is the explicit `p` here. -/
def Ngrams.pad {T : Type u} (p : Pad T) (g : Ngrams T) : Ngrams T :=
  { g with padFlag := true,
           source := Src.padded g.source (p.len g.num) p.symbol (p.len g.num) false }

/-- The loop body of `Ngrams::fill_memory` (lib.rs lines 119-127), with the
remaining iteration count `memsize - memory.len()` made explicit: pull the
source and push onto the back of the buffer; `none` models the `.unwrap()`
panic when the source is exhausted before the buffer fills. -/
def fillLoop {T : Type u} : Nat → Src T → List T → Option (Src T × List T)
  | 0, src, memory => some (src, memory)
  | k + 1, src, memory =>
    match Src.next src with
    | (none, _) => none
    | (some a, src2) => fillLoop k src2 (memory ++ [a])

/-- `Ngrams::fill_memory` (lib.rs lines 119-127): top up the lookback buffer
to `memsize` elements; `none` models the `.unwrap()` panic. -/
def Ngrams.fill_memory {T : Type u} (g : Ngrams T) : Option (Ngrams T) :=
  match fillLoop (g.memsize - g.memory.length) g.source g.memory with
  | none => none
  | some (src2, mem2) => some { g with source := src2, memory := mem2 }

/-- Outcome of one pull on the `Ngrams` iterator: the `.unwrap()` panic during
fill-up, exhaustion (`None`), or an emitted window with the successor state. -/
inductive Step (T : Type u) where
  | abort : Step T
  | done : Ngrams T → Step T
  | item : List T → Ngrams T → Step T
deriving DecidableEq

/-- `impl Iterator for Ngrams::next` (lib.rs lines 129-150): run `fill_memory`
(propagating its panic), then pull one token `n` from the source; on `Some n`
the window is the buffer contents front-to-back followed by `n`, after which
the buffer pops its front (a silent no-op when the buffer is empty) and pushes
`n` at the back; on `None` the iterator yields nothing. -/
def Ngrams.next {T : Type u} (g : Ngrams T) : Step T :=
  match g.fill_memory with
  | none => Step.abort
  | some g1 =>
    match Src.next g1.source with
    | (none, src2) => Step.done { g1 with source := src2 }
    | (some n, src2) =>
      Step.item (g1.memory ++ [n])
        { g1 with source := src2, memory := g1.memory.tail ++ [n] }

/-- Drive the `Ngrams` iterator for at most `fuel` pulls, collecting the
produced windows in order (Rust's `.collect()`); `none` propagates the
fill-up panic, exhaustion within the fuel budget ends the list. -/
def Ngrams.collect {T : Type u} : Nat → Ngrams T → Option (List (List T))
  | 0, _ => some []
  | fuel + 1, g =>
    match Ngrams.next g with
    | .abort => none
    | .done _ => some []
    | .item w g2 => (Ngrams.collect fuel g2).map (fun ws => w :: ws)

/-- The steady-state recursion of the windowing stage, as a pure function of
the current buffer `M` and the tokens still to come: each step emits
`M ++ [t]` and continues with buffer `M.tail ++ [t]`. -/
def steadyWindows {T : Type u} (M : List T) : List T → List (List T)
  | [] => []
  | t :: rest => (M ++ [t]) :: steadyWindows (M.tail ++ [t]) rest

/-- Pairwise overlap property of a window list: each window's last `k`
elements equal the next window's first `k` elements. -/
def Overlap {T : Type u} (k : Nat) : List (List T) → Prop
  | [] => True
  | [_] => True
  | w1 :: w2 :: ws => w1.drop (w1.length - k) = w2.take k ∧ Overlap k (w2 :: ws)

/-- Modelled from the spec (sections 3 and 4.2): the two-counter padding-stage
model — a leading countdown `lead` and a trailing countdown `trail`, both
initialized to the pad length `p`, plus the source-exhausted flag. -/
structure SpecPadded (T : Type u) where
  source : List T
  p : Nat
  symbol : T
  lead : Nat
  trail : Nat
  sourceDone : Bool

/-- Modelled from the spec (section 4.2, contract "produce next token"): if
the leading countdown is nonzero, decrement it and emit the sentinel;
otherwise pull the source and pass tokens through; at the first observed
exhaustion set the flag and reload the trailing countdown to `p`; while the
trailing countdown is nonzero, decrement it and emit the sentinel; otherwise
yield nothing. -/
def SpecPadded.next {T : Type u} (s : SpecPadded T) : Option T × SpecPadded T :=
  if 0 < s.lead then
    (some s.symbol, { s with lead := s.lead - 1 })
  else
    match s.source with
    | t :: rest => (some t, { s with source := rest })
    | [] =>
      let s1 := if s.sourceDone then s else { s with sourceDone := true, trail := s.p }
      if 0 < s1.trail then
        (some s1.symbol, { s1 with trail := s1.trail - 1 })
      else
        (none, s1)

/-- Drive the spec's two-counter padding model for at most `fuel` pulls. -/
def SpecPadded.run {T : Type u} : Nat → SpecPadded T → List T
  | 0, _ => []
  | fuel + 1, s =>
    match SpecPadded.next s with
    | (none, _) => []
    | (some t, s2) => t :: SpecPadded.run fuel s2

/-- Simulation relation between the implementation's padding state machine
and the spec's two-counter model: in the leading phase the single `remaining`
counter plays the leading countdown (the model's trailing countdown is
arbitrary, it is reloaded before use); in the trailing phase it plays the
trailing countdown, the inner source being exhausted. -/
inductive PadSim {T : Type u} : Src T → SpecPadded T → Prop where
  | lead (l : List T) (P : Nat) (symbol : T) (remaining trail : Nat) :
      PadSim (Src.padded (Src.raw l) P symbol remaining false)
        { source := l, p := P, symbol := symbol, lead := remaining,
          trail := trail, sourceDone := false }
  | trail (P : Nat) (symbol : T) (remaining : Nat) :
      PadSim (Src.padded (Src.raw []) P symbol remaining true)
        { source := [], p := P, symbol := symbol, lead := 0,
          trail := remaining, sourceDone := true }

/-! ### Lemmas about sources -/

theorem Src.next_spec {T : Type u} (s : Src T) (hwf : Src.wf s) :
    (Src.next s).1 = (Src.stream s).head? ∧
    Src.wf (Src.next s).2 ∧
    Src.stream (Src.next s).2 = (Src.stream s).tail := by
  induction s with
  | raw l =>
    cases l <;> simp [Src.next, Src.stream, Src.wf]
  | padded inner len symbol remaining endFlag ih =>
    obtain ⟨hwfI, hE⟩ := hwf
    obtain ⟨ih1, ih2, ih3⟩ := ih hwfI
    cases remaining with
    | succ r =>
      cases endFlag with
      | true =>
        simp [Src.next, Src.stream, Src.wf, List.replicate_succ, hwfI, hE]
      | false =>
        simp [Src.next, Src.stream, Src.wf, List.replicate_succ, hwfI]
    | zero =>
      cases hni : Src.next inner with
      | mk o inner2 =>
        rw [hni] at ih1 ih2 ih3
        cases endFlag with
        | true =>
          have hsi : Src.stream inner = [] := hE rfl
          have ho : o = none := by simpa [hsi] using ih1
          subst ho
          simp [Src.next, hni, Src.stream, Src.wf, ih2, ih3, hsi]
        | false =>
          cases hsi : Src.stream inner with
          | cons t rest =>
            have ho : o = some t := by simpa [hsi] using ih1
            subst ho
            simp [Src.next, hni, Src.stream, Src.wf, ih2, ih3, hsi]
          | nil =>
            have ho : o = none := by simpa [hsi] using ih1
            subst ho
            cases len with
            | zero =>
              simp [Src.next, hni, Src.stream, Src.wf, ih2, ih3, hsi]
            | succ lm =>
              simp [Src.next, hni, Src.stream, Src.wf, ih2, ih3, hsi,
                List.replicate_succ]

theorem Src.next_none_fix {T : Type u} {s s2 : Src T} (h : Src.next s = (none, s2)) :
    Src.next s2 = (none, s2) := by
  induction s generalizing s2 with
  | raw l =>
    cases l with
    | nil =>
      simp [Src.next] at h
      subst h
      simp [Src.next]
    | cons t rest => simp [Src.next] at h
  | padded inner len symbol remaining endFlag ih =>
    by_cases hrem : 0 < remaining
    · simp [Src.next, hrem] at h
    · have hrem0 : remaining = 0 := by omega
      subst hrem0
      cases hni : Src.next inner with
      | mk o inner2 =>
        cases o with
        | some t => simp [Src.next, hni] at h
        | none =>
          have hfix := ih hni
          by_cases h2 : 0 < (if endFlag then 0 else len)
          · simp [Src.next, hni, h2] at h
          · simp [Src.next, hni, h2] at h
            subst h
            have hz : (if endFlag then 0 else len) = 0 := by omega
            simp [Src.next, hfix, hz]

theorem Src.run_eq_stream {T : Type u} (fuel : Nat) (s : Src T) (hwf : Src.wf s)
    (h : (Src.stream s).length < fuel) : Src.run fuel s = Src.stream s := by
  induction fuel generalizing s with
  | zero => omega
  | succ f ihf =>
    obtain ⟨h1, h2, h3⟩ := Src.next_spec s hwf
    cases hn : Src.next s with
    | mk o s2 =>
      rw [hn] at h1 h2 h3
      cases hst : Src.stream s with
      | nil =>
        rw [hst] at h1
        simp at h1
        subst h1
        simp [Src.run, hn]
      | cons t rest =>
        rw [hst] at h1 h3
        simp at h1 h3
        subst h1
        simp only [Src.run, hn, hst]
        rw [ihf s2 h2 (by rw [h3]; rw [hst] at h; simp at h; omega), h3]

/-! ### Lemmas about the fill-up phase and the collected windows -/

theorem fillLoop_some {T : Type u} : ∀ (k : Nat) (s : Src T) (mem : List T), Src.wf s →
    k ≤ (Src.stream s).length →
    ∃ s2, fillLoop k s mem = some (s2, mem ++ (Src.stream s).take k) ∧
      Src.wf s2 ∧ Src.stream s2 = (Src.stream s).drop k := by
  intro k
  induction k with
  | zero =>
    intro s mem hwf _
    exact ⟨s, by simp [fillLoop], hwf, by simp⟩
  | succ k ihk =>
    intro s mem hwf hlen
    obtain ⟨h1, h2, h3⟩ := Src.next_spec s hwf
    cases hst : Src.stream s with
    | nil => rw [hst] at hlen; simp at hlen
    | cons t rest =>
      cases hn : Src.next s with
      | mk o s2 =>
        rw [hn] at h1 h2 h3
        rw [hst] at h1 h3
        simp at h1 h3
        subst h1
        obtain ⟨s3, hs3, hwf3, hst3⟩ := ihk s2 (mem ++ [t]) h2
          (by rw [h3]; rw [hst] at hlen; simp at hlen; omega)
        refine ⟨s3, ?_, hwf3, ?_⟩
        · simp only [fillLoop, hn]
          rw [hs3, h3]
          simp [List.take_succ_cons]
        · rw [hst3, h3]
          simp

theorem fillLoop_none {T : Type u} : ∀ (k : Nat) (s : Src T) (mem : List T), Src.wf s →
    (Src.stream s).length < k → fillLoop k s mem = none := by
  intro k
  induction k with
  | zero => intro s mem _ h; omega
  | succ k ihk =>
    intro s mem hwf hlen
    obtain ⟨h1, h2, h3⟩ := Src.next_spec s hwf
    cases hn : Src.next s with
    | mk o s2 =>
      rw [hn] at h1 h2 h3
      cases hst : Src.stream s with
      | nil =>
        rw [hst] at h1; simp at h1; subst h1
        simp [fillLoop, hn]
      | cons t rest =>
        rw [hst] at h1 h3; simp at h1 h3; subst h1
        simp only [fillLoop, hn]
        exact ihk s2 (mem ++ [t]) h2 (by rw [h3]; rw [hst] at hlen; simp at hlen; omega)

theorem fillLoop_length {T : Type u} : ∀ (k : Nat) (s : Src T) (mem : List T)
    (s2 : Src T) (mem2 : List T),
    fillLoop k s mem = some (s2, mem2) → mem2.length = mem.length + k := by
  intro k
  induction k with
  | zero =>
    intro s mem s2 mem2 h
    simp [fillLoop] at h
    obtain ⟨h1, h2⟩ := h
    subst h2
    simp
  | succ k ihk =>
    intro s mem s2 mem2 h
    cases hn : Src.next s with
    | mk o s3 =>
      cases o with
      | none => simp [fillLoop, hn] at h
      | some a =>
        simp only [fillLoop, hn] at h
        have := ihk s3 (mem ++ [a]) s2 mem2 h
        simp at this
        omega

theorem Ngrams.fill_steady {T : Type u} (g : Ngrams T) (h : g.memsize ≤ g.memory.length) :
    g.fill_memory = some g := by
  have h0 : g.memsize - g.memory.length = 0 := Nat.sub_eq_zero_of_le h
  simp [Ngrams.fill_memory, h0, fillLoop]

theorem Ngrams.fill_post {T : Type u} {g g1 : Ngrams T} (h : g.fill_memory = some g1) :
    g1.memsize = g.memsize ∧ g1.num = g.num ∧ g1.padFlag = g.padFlag ∧
    g1.memsize ≤ g1.memory.length := by
  unfold Ngrams.fill_memory at h
  cases hf : fillLoop (g.memsize - g.memory.length) g.source g.memory with
  | none => rw [hf] at h; simp at h
  | some pr =>
    obtain ⟨src2, mem2⟩ := pr
    rw [hf] at h
    simp at h
    have hl := fillLoop_length _ _ _ _ _ hf
    subst h
    simp
    omega

theorem Ngrams.next_fill {T : Type u} {g g1 : Ngrams T} (h : g.fill_memory = some g1) :
    Ngrams.next g = Ngrams.next g1 := by
  have hidem : g1.fill_memory = some g1 := Ngrams.fill_steady g1 (Ngrams.fill_post h).2.2.2
  unfold Ngrams.next
  rw [h, hidem]

theorem Ngrams.collect_fill {T : Type u} (fuel : Nat) {g g1 : Ngrams T}
    (h : g.fill_memory = some g1) : Ngrams.collect fuel g = Ngrams.collect fuel g1 := by
  cases fuel with
  | zero => rfl
  | succ f => simp only [Ngrams.collect, Ngrams.next_fill h]

theorem Ngrams.collect_steady {T : Type u} : ∀ (fuel : Nat) (s : Src T) (n ms : Nat)
    (M : List T) (b : Bool), Src.wf s → ms ≤ M.length →
    Ngrams.collect fuel { source := s, num := n, memsize := ms, memory := M, padFlag := b }
      = some ((steadyWindows M (Src.stream s)).take fuel) := by
  intro fuel
  induction fuel with
  | zero => intro s n ms M b _ _; simp [Ngrams.collect]
  | succ f ihf =>
    intro s n ms M b hwf hms
    have hfill : Ngrams.fill_memory
        { source := s, num := n, memsize := ms, memory := M, padFlag := b }
        = some { source := s, num := n, memsize := ms, memory := M, padFlag := b } :=
      Ngrams.fill_steady _ (by simpa using hms)
    obtain ⟨h1, h2, h3⟩ := Src.next_spec s hwf
    cases hn : Src.next s with
    | mk o s2 =>
      rw [hn] at h1 h2 h3
      cases hst : Src.stream s with
      | nil =>
        rw [hst] at h1; simp at h1; subst h1
        simp [Ngrams.collect, Ngrams.next, hfill, hn, hst, steadyWindows]
      | cons t rest =>
        rw [hst] at h1 h3; simp at h1 h3; subst h1
        have ih := ihf s2 n ms (M.tail ++ [t]) b h2 (by simp; omega)
        simp only [Ngrams.collect, Ngrams.next, hfill, hn]
        rw [ih, h3]
        simp [steadyWindows, List.take_succ_cons]

theorem Ngrams.collect_fresh {T : Type u} (fuel : Nat) (s : Src T) (n ms : Nat) (b : Bool)
    (hwf : Src.wf s) (h : ms ≤ (Src.stream s).length) :
    Ngrams.collect fuel { source := s, num := n, memsize := ms, memory := [], padFlag := b }
      = some ((steadyWindows ((Src.stream s).take ms) ((Src.stream s).drop ms)).take fuel) := by
  obtain ⟨s2, hfl, hwf2, hst2⟩ := fillLoop_some ms s [] hwf h
  have hfill : Ngrams.fill_memory
      { source := s, num := n, memsize := ms, memory := [], padFlag := b }
      = some { source := s2, num := n, memsize := ms,
               memory := (Src.stream s).take ms, padFlag := b } := by
    simp only [Ngrams.fill_memory, List.length_nil, Nat.sub_zero]
    rw [hfl]
    simp
  rw [Ngrams.collect_fill fuel hfill]
  rw [Ngrams.collect_steady fuel s2 n ms _ b hwf2 (by simp [List.length_take]; omega)]
  rw [hst2]

theorem Ngrams.next_fresh_abort {T : Type u} (s : Src T) (n ms : Nat) (b : Bool)
    (hwf : Src.wf s) (h : (Src.stream s).length < ms) :
    Ngrams.next { source := s, num := n, memsize := ms, memory := [], padFlag := b }
      = Step.abort := by
  have hfl := fillLoop_none ms s [] hwf h
  simp [Ngrams.next, Ngrams.fill_memory, hfl]

theorem steadyWindows_length {T : Type u} : ∀ (S M : List T),
    (steadyWindows M S).length = S.length := by
  intro S
  induction S with
  | nil => intro M; rfl
  | cons t rest ih => intro M; simp [steadyWindows, ih]

/-! ### Lemmas about window overlap -/

theorem Overlap_cons_cons {T : Type u} {k : Nat} (w1 w2 : List T) (ws : List (List T)) :
    Overlap k (w1 :: w2 :: ws) ↔
      (w1.drop (w1.length - k) = w2.take k ∧ Overlap k (w2 :: ws)) := Iff.rfl

theorem overlap_take {T : Type u} {k : Nat} :
    ∀ (l : List (List T)) (m : Nat), Overlap k l → Overlap k (l.take m)
  | [], m, _ => by simp [Overlap]
  | [w], m, _ => by cases m <;> simp [Overlap]
  | w1 :: w2 :: rest, 0, _ => by simp [Overlap]
  | w1 :: w2 :: rest, 1, _ => by simp [Overlap]
  | w1 :: w2 :: rest, (m + 2), h => by
    have h' : w1.drop (w1.length - k) = w2.take k ∧ Overlap k (w2 :: rest) := h
    have ht := overlap_take (w2 :: rest) (m + 1) h'.2
    exact ⟨h'.1, ht⟩

theorem overlap_get {T : Type u} {k : Nat} :
    ∀ (l : List (List T)), Overlap k l → ∀ (i : Nat) (h : i + 1 < l.length),
      (l.get ⟨i, by omega⟩).drop ((l.get ⟨i, by omega⟩).length - k)
        = (l.get ⟨i + 1, h⟩).take k
  | [], _, i, h => absurd h (by simp)
  | [w], _, i, h => absurd h (by simp)
  | w1 :: w2 :: rest, hov, 0, h =>
    (show w1.drop (w1.length - k) = w2.take k ∧ Overlap k (w2 :: rest) from hov).1
  | w1 :: w2 :: rest, hov, (i + 1), h => by
    have hr : Overlap k (w2 :: rest) :=
      (show w1.drop (w1.length - k) = w2.take k ∧ Overlap k (w2 :: rest) from hov).2
    exact overlap_get (w2 :: rest) hr i (Nat.lt_of_succ_lt_succ h)

theorem overlap_steady {T : Type u} {k : Nat} : ∀ (S M : List T),
    (k = 0 ∨ M.length = k) → Overlap k (steadyWindows M S) := by
  intro S
  induction S with
  | nil => intro M h; simp [steadyWindows, Overlap]
  | cons t rest ih =>
    intro M h
    cases rest with
    | nil => simp [steadyWindows, Overlap]
    | cons u rest2 =>
      have hpair : (M ++ [t]).drop ((M ++ [t]).length - k)
          = ((M.tail ++ [t]) ++ [u]).take k := by
        rcases h with hk | hM
        · subst hk; simp
        · rcases M with _ | ⟨m, M'⟩
          · simp at hM
            simp [← hM]
          · simp only [List.tail_cons]
            simp only [List.length_append, List.length_cons] at hM
            have ht2 : (M' ++ [t]).length = k := by simp; omega
            have hl : ((m :: M') ++ [t]).length - k = 1 := by simp; omega
            rw [hl, ← ht2, List.take_left]
            simp
      have hnext : k = 0 ∨ (M.tail ++ [t]).length = k := by
        rcases h with hk | hM
        · exact Or.inl hk
        · rcases M with _ | ⟨m, M'⟩
          · simp at hM; exact Or.inl hM.symm
          · right; simp at hM ⊢; omega
      have hrest := ih (M.tail ++ [t]) hnext
      simp only [steadyWindows] at hrest ⊢
      exact ⟨hpair, hrest⟩

/-! ### Simulation between the padding implementation and the spec model -/

theorem PadSim.step {T : Type u} {s : Src T} {t : SpecPadded T} (h : PadSim s t) :
    (Src.next s).1 = (SpecPadded.next t).1 ∧
    PadSim (Src.next s).2 (SpecPadded.next t).2 := by
  cases h with
  | lead l P symbol remaining trail =>
    cases remaining with
    | succ r =>
      refine ⟨by simp [Src.next, SpecPadded.next], ?_⟩
      simp only [Src.next, SpecPadded.next]
      simp
      exact PadSim.lead l P symbol r trail
    | zero =>
      cases l with
      | cons a rest =>
        refine ⟨by simp [Src.next, SpecPadded.next], ?_⟩
        simp only [Src.next, SpecPadded.next]
        simp
        exact PadSim.lead rest P symbol 0 trail
      | nil =>
        cases P with
        | succ p2 =>
          refine ⟨by simp [Src.next, SpecPadded.next], ?_⟩
          simp only [Src.next, SpecPadded.next]
          simp
          exact PadSim.trail (p2 + 1) symbol p2
        | zero =>
          refine ⟨by simp [Src.next, SpecPadded.next], ?_⟩
          simp only [Src.next, SpecPadded.next]
          simp
          exact PadSim.trail 0 symbol 0
  | trail P symbol remaining =>
    cases remaining with
    | succ r =>
      refine ⟨by simp [Src.next, SpecPadded.next], ?_⟩
      simp only [Src.next, SpecPadded.next]
      simp
      exact PadSim.trail P symbol r
    | zero =>
      refine ⟨by simp [Src.next, SpecPadded.next], ?_⟩
      simp only [Src.next, SpecPadded.next]
      simp
      exact PadSim.trail P symbol 0

theorem PadSim.run_eq {T : Type u} : ∀ (fuel : Nat) (s : Src T) (t : SpecPadded T),
    PadSim s t → Src.run fuel s = SpecPadded.run fuel t := by
  intro fuel
  induction fuel with
  | zero => intro s t _; rfl
  | succ f ihf =>
    intro s t h
    obtain ⟨h1, h2⟩ := h.step
    cases hn : Src.next s with
    | mk o s2 =>
      cases hm : SpecPadded.next t with
      | mk o2 t2 =>
        rw [hn, hm] at h1 h2
        simp at h1
        subst h1
        cases o with
        | none => simp [Src.run, SpecPadded.run, hn, hm]
        | some a =>
          simp [Src.run, SpecPadded.run, hn, hm]
          exact ihf s2 t2 h2

theorem Src.wf_pad_raw {T : Type u} (l : List T) (a : Nat) (x : T) (r : Nat) :
    Src.wf (Src.padded (Src.raw l) a x r false) := ⟨trivial, by simp⟩

theorem Src.wf_pad_pad_raw {T : Type u} (l : List T) (a : Nat) (x : T) (r : Nat)
    (a2 : Nat) (x2 : T) (r2 : Nat) :
    Src.wf (Src.padded (Src.padded (Src.raw l) a x r false) a2 x2 r2 false) :=
  ⟨Src.wf_pad_raw l a x r, by simp⟩

/-! ### The claims -/

/-- C1: the claim states that for every N ≥ 1 and every unpadded source of length
L ≥ N-1, the i-th produced window equals the source slice from i to i+N-1 and has
length exactly N.  The code violates this at N = 1: over the two-token source
[10, 20] it yields the windows [[10], [10, 20]] — the second window has length 2
and is not the slice [20] — because `pop_front` in `Ngrams::next` is a silent
no-op on the empty lookback buffer while `push_back` still grows it.  This
theorem evaluates the embedded code at that failing input (window count
max(0, L-N+1) = 2 is met, window contents are not). -/
theorem C1_n1_windows_eval :
    Ngrams.new ([10, 20] : List Nat) 1
      = some { source := Src.raw [10, 20], num := 1, memsize := 0,
               memory := [], padFlag := false } ∧
    Ngrams.collect 5 { source := Src.raw ([10, 20] : List Nat), num := 1, memsize := 0,
                       memory := [], padFlag := false }
      = some [[10], [10, 20]] := ⟨rfl, rfl⟩

/-- C2: for every window size N ≥ 1 and every source of original length L, enabling
padding with the default pad length P = N-1 and collecting the iterator produces
exactly L + N - 1 windows (any fuel budget of at least L + N pulls suffices to
exhaust the iterator). -/
theorem C2_padded_window_count {T : Type u} (src : List T) (n : Nat) (g : Ngrams T)
    (p : Pad T) (hg : Ngrams.new src n = some g) (hp : p.len n = n - 1)
    (fuel : Nat) (hfuel : src.length + n ≤ fuel) :
    (Ngrams.collect fuel (Ngrams.pad p g)).map List.length
      = some (src.length + n - 1) := by
  by_cases hn : n = 0
  · simp [Ngrams.new, hn] at hg
  · simp [Ngrams.new, hn] at hg
    subst hg
    simp only [Ngrams.pad, hp]
    have hwf := Src.wf_pad_raw src (n - 1) p.symbol (n - 1)
    have hstlen : (Src.stream (Src.padded (Src.raw src) (n - 1) p.symbol (n - 1) false)).length
        = (n - 1) + src.length + (n - 1) := by
      simp [Src.stream]
      omega
    have hle : n - 1 ≤ (Src.stream (Src.padded (Src.raw src) (n - 1) p.symbol (n - 1) false)).length := by
      omega
    rw [Ngrams.collect_fresh fuel _ n (n - 1) true hwf hle]
    simp [steadyWindows_length, List.length_take, List.length_drop, hstlen]
    omega

/-- C2 witness: N = 2, source [7, 8], sentinel 9: five pulls of fuel give the
three padded windows. -/
theorem C2_padded_window_count_witness :
    (Ngrams.collect 10 (Ngrams.pad { symbol := 9, len := fun m => m - 1 }
        { source := Src.raw ([7, 8] : List Nat), num := 2, memsize := 1,
          memory := [], padFlag := false })).map List.length = some 3 :=
  C2_padded_window_count [7, 8] 2 _ _ (by decide) rfl 10 (by decide)

/-- C3: the token stream emitted by the padding stage is exactly P sentinels,
then the source unchanged, then P sentinels, and then nothing (any sufficient
fuel yields the same finite list, and P = 0 degenerates to a pass-through);
the built-in char/str/String/byte bindings use the U+2060 sentinel and the
default pad length N - 1. -/
theorem C3_padding_stage_stream :
    (∀ (T : Type u) (P : Nat) (symbol : T) (l : List T) (fuel : Nat),
        2 * P + l.length < fuel →
        Src.run fuel (Src.padded (Src.raw l) P symbol P false)
          = List.replicate P symbol ++ l ++ List.replicate P symbol) ∧
    Pad.char.symbol = Char.ofNat 0x2060 ∧ Pad.char.len = (fun n => n - 1) ∧
    Pad.str.symbol = WORD_SEP ∧ Pad.str.len = (fun n => n - 1) ∧
    Pad.string.symbol = WORD_SEP ∧ Pad.string.len = (fun n => n - 1) ∧
    Pad.bytes.symbol = [0xE2, 0x81, 0xA0] ∧ Pad.bytes.len = (fun n => n - 1) ∧
    WORD_SEP = String.mk [Char.ofNat 0x2060] := by
  refine ⟨?_, by decide, rfl, rfl, rfl, rfl, rfl, rfl, rfl, by decide⟩
  intro T P symbol l fuel hfuel
  rw [Src.run_eq_stream fuel _ (Src.wf_pad_raw l P symbol P)
    (by simp [Src.stream]; omega)]
  simp [Src.stream]

/-- C3 witness: P = 2 over the source [1, 2, 3] with sentinel 9. -/
theorem C3_padding_stage_stream_witness :
    Src.run 10 (Src.padded (Src.raw ([1, 2, 3] : List Nat)) 2 9 2 false)
      = List.replicate 2 9 ++ [1, 2, 3] ++ List.replicate 2 9 :=
  C3_padding_stage_stream.1 Nat 2 9 [1, 2, 3] 10 (by decide)

/-- C4: for every N ≥ 1 and every (possibly padded) source whose stream is
shorter than N-1, the first pull on the iterator hits the `.unwrap()` panic in
the fill-up phase (Step.abort), and for sources of at least N-1 tokens the
panic branch is never reached on any pull (collecting with any fuel budget
never yields the panic outcome). -/
theorem C4_insufficient_input_abort {T : Type u} (n : Nat) (s : Src T) (b : Bool)
    (hn : 1 ≤ n) (hwf : Src.wf s) :
    ((Src.stream s).length < n - 1 →
      Ngrams.next { source := s, num := n, memsize := n - 1, memory := [], padFlag := b }
        = Step.abort) ∧
    (n - 1 ≤ (Src.stream s).length →
      ∀ fuel, Ngrams.collect fuel
        { source := s, num := n, memsize := n - 1, memory := [], padFlag := b } ≠ none) := by
  constructor
  · intro h
    exact Ngrams.next_fresh_abort s n (n - 1) b hwf h
  · intro h fuel
    rw [Ngrams.collect_fresh fuel s n (n - 1) b hwf h]
    simp

/-- C4 witness: N = 3 over the one-token source [5] (length 1 < 2): the first
pull aborts. -/
theorem C4_insufficient_input_abort_witness :
    Ngrams.next { source := Src.raw ([5] : List Nat), num := 3, memsize := 2,
                  memory := [], padFlag := false } = Step.abort :=
  (C4_insufficient_input_abort 3 (Src.raw [5]) false (by decide) trivial).1 (by decide)

/-- C5: a window size of N = 0, whose `n - 1` underflows, fails at construction
time of the producer (`Ngrams::new`), before any window is requested, while
every N ≥ 1 constructs successfully. -/
theorem C5_zero_window_rejected {T : Type u} (src : List T) (n : Nat) :
    Ngrams.new src 0 = none ∧ (1 ≤ n → (Ngrams.new src n).isSome = true) := by
  constructor
  · rfl
  · intro hn
    have h0 : n ≠ 0 := by omega
    simp [Ngrams.new, h0]

/-- C5 witness: construction succeeds at N = 3 over [5]. -/
theorem C5_zero_window_rejected_witness :
    (Ngrams.new ([5] : List Nat) 3).isSome = true :=
  (C5_zero_window_rejected [5] 3).2 (by decide)

/-- C6: for every N ≥ 1, in any traversal (over a raw or padded source), every
two consecutively produced windows i and i+1 satisfy: the last N-1 elements of
window i equal the first N-1 elements of window i+1. -/
theorem C6_consecutive_window_overlap {T : Type u} (n : Nat) (b : Bool) (s : Src T)
    (hn : 1 ≤ n) (hwf : Src.wf s) (fuel : Nat) (ws : List (List T))
    (hws : Ngrams.collect fuel
      { source := s, num := n, memsize := n - 1, memory := [], padFlag := b } = some ws)
    (i : Nat) (h : i + 1 < ws.length) :
    (ws.get ⟨i, by omega⟩).drop ((ws.get ⟨i, by omega⟩).length - (n - 1))
      = (ws.get ⟨i + 1, h⟩).take (n - 1) := by
  by_cases hlen : n - 1 ≤ (Src.stream s).length
  · rw [Ngrams.collect_fresh fuel s n (n - 1) b hwf hlen] at hws
    have hws2 := Option.some.inj hws
    subst hws2
    have hM : n - 1 = 0 ∨ ((Src.stream s).take (n - 1)).length = n - 1 :=
      Or.inr (by simp [List.length_take]; omega)
    have hov := overlap_take _ fuel (overlap_steady ((Src.stream s).drop (n - 1)) _ hM)
    exact overlap_get _ hov i h
  · cases fuel with
    | zero =>
      simp [Ngrams.collect] at hws
      subst hws
      simp at h
    | succ f =>
      have habort := Ngrams.next_fresh_abort s n (n - 1) b hwf (by omega)
      simp only [Ngrams.collect, habort] at hws
      simp at hws

/-- C6 witness: N = 2 over the raw source [1, 2, 3], windows [[1,2],[2,3]],
consecutive pair at i = 0. -/
theorem C6_consecutive_window_overlap_witness :
    (([[1, 2], [2, 3]] : List (List Nat)).get ⟨0, by decide⟩).drop
        ((([[1, 2], [2, 3]] : List (List Nat)).get ⟨0, by decide⟩).length - (2 - 1))
      = (([[1, 2], [2, 3]] : List (List Nat)).get ⟨1, by decide⟩).take (2 - 1) :=
  C6_consecutive_window_overlap 2 false (Src.raw [1, 2, 3]) (by decide) trivial 10
    [[1, 2], [2, 3]] (by decide) 0 (by decide)

/-- C7: once a pull on the iterator yields nothing (Step.done), the stage is
permanently exhausted: the successor state again yields nothing, with an
unchanged state, so no further window is ever produced on repeated calls. -/
theorem C7_exhaustion_permanent {T : Type u} (g g2 : Ngrams T)
    (h : Ngrams.next g = Step.done g2) : Ngrams.next g2 = Step.done g2 := by
  cases hf : g.fill_memory with
  | none => simp [Ngrams.next, hf] at h
  | some g1 =>
    cases hn : Src.next g1.source with
    | mk o s2 =>
      cases o with
      | some a => simp [Ngrams.next, hf, hn] at h
      | none =>
        simp only [Ngrams.next, hf, hn] at h
        simp at h
        subst h
        have hfix := Src.next_none_fix hn
        have hpost := Ngrams.fill_post hf
        have hsteady : Ngrams.fill_memory
            { source := s2, num := g1.num, memsize := g1.memsize,
              memory := g1.memory, padFlag := g1.padFlag }
            = some { source := s2, num := g1.num, memsize := g1.memsize,
                     memory := g1.memory, padFlag := g1.padFlag } :=
          Ngrams.fill_steady _ (by simpa using hpost.2.2.2)
        simp [Ngrams.next, hsteady, hfix]

/-- C7 witness: the exhausted state over the empty raw source with N = 1. -/
theorem C7_exhaustion_permanent_witness :
    Ngrams.next { source := Src.raw ([] : List Nat), num := 1, memsize := 0,
                  memory := [], padFlag := false }
      = Step.done { source := Src.raw ([] : List Nat), num := 1, memsize := 0,
                    memory := [], padFlag := false } :=
  C7_exhaustion_permanent
    { source := Src.raw ([] : List Nat), num := 1, memsize := 0,
      memory := [], padFlag := false }
    { source := Src.raw ([] : List Nat), num := 1, memsize := 0,
      memory := [], padFlag := false }
    (by decide)

/-- C8: the claim states the lookback buffer holds exactly N-1 elements before
the first emission and after every emission.  The code violates this at N = 1
(memsize = 0): pulling the one-token source [10] emits the window [10] and
leaves the buffer holding one element, because `pop_front` on the empty
`VecDeque` is a silent no-op while `push_back` still appends.  This theorem
evaluates the embedded `next` at that failing input and records that the
post-emission buffer length differs from memsize = N-1 = 0. -/
theorem C8_n1_buffer_eval :
    Ngrams.next { source := Src.raw ([10] : List Nat), num := 1, memsize := 0,
                  memory := [], padFlag := false }
      = Step.item [10] { source := Src.raw [], num := 1, memsize := 0,
                         memory := [10], padFlag := false } ∧
    ¬ (({ source := Src.raw ([] : List Nat), num := 1, memsize := 0,
          memory := [10], padFlag := false } : Ngrams Nat).memory.length
        = ({ source := Src.raw ([] : List Nat), num := 1, memsize := 0,
             memory := [10], padFlag := false } : Ngrams Nat).memsize) :=
  ⟨rfl, by decide⟩

/-- C9: the padding stage's observable token stream equals that of the spec's
two-counter model (a leading and a trailing countdown, both initialized to the
pad length P, decreasing to zero), established through the simulation relation
`PadSim` between the implementation's state machine and the model: for every
source, pad length, sentinel and fuel budget the two machines produce
identical streams. -/
theorem C9_padding_refines_two_counter {T : Type u} (l : List T) (P : Nat)
    (symbol : T) (fuel : Nat) :
    Src.run fuel (Src.padded (Src.raw l) P symbol P false)
      = SpecPadded.run fuel
          { source := l, p := P, symbol := symbol, lead := P, trail := P,
            sourceDone := false } :=
  PadSim.run_eq fuel _ _ (PadSim.lead l P symbol P P)

/-- C10: `pad()` is not idempotent: calling it twice wraps the source in two
padding stages, so with the default pad length the resulting stream carries
2*(N-1) leading and 2*(N-1) trailing sentinels around the unchanged source,
instead of N-1 on each side. -/
theorem C10_double_pad {T : Type u} (src : List T) (n : Nat) (g : Ngrams T)
    (p : Pad T) (hg : Ngrams.new src n = some g) (hp : p.len n = n - 1)
    (fuel : Nat) (hfuel : 4 * (n - 1) + src.length < fuel) :
    Src.run fuel (Ngrams.pad p (Ngrams.pad p g)).source
      = List.replicate (2 * (n - 1)) p.symbol ++ src
          ++ List.replicate (2 * (n - 1)) p.symbol := by
  by_cases hn : n = 0
  · simp [Ngrams.new, hn] at hg
  · simp [Ngrams.new, hn] at hg
    subst hg
    simp only [Ngrams.pad, hp]
    rw [Src.run_eq_stream fuel _
      (Src.wf_pad_pad_raw src (n - 1) p.symbol (n - 1) (n - 1) p.symbol (n - 1))
      (by simp [Src.stream]; omega)]
    simp [Src.stream]
    rw [show 2 * (n - 1) = (n - 1) + (n - 1) by omega]
    rw [← List.append_assoc, ← List.replicate_add]

/-- C10 witness: N = 2 over [7] with sentinel 9: the doubly padded stream is
[9, 9, 7, 9, 9]. -/
theorem C10_double_pad_witness :
    Src.run 10 (Ngrams.pad { symbol := 9, len := fun m => m - 1 }
        (Ngrams.pad { symbol := 9, len := fun m => m - 1 }
          { source := Src.raw ([7] : List Nat), num := 2, memsize := 1,
            memory := [], padFlag := false })).source
      = List.replicate (2 * (2 - 1)) 9 ++ [7] ++ List.replicate (2 * (2 - 1)) 9 :=
  C10_double_pad [7] 2 _ { symbol := 9, len := fun m => m - 1 } (by decide) rfl 10
    (by decide)
